import Mathlib

/-!
Shallow embedding of the `simple_wave_gen` repository's core:
the `SineGenerator` oscillator (`include/SineGenerator.hpp`), the command
record and shared ring buffer (`include/Communication.hpp`), and the
generator main loop's command dispatch and per-sample ring-buffer write
(`src/generator.cpp`).  C++ `double` arithmetic is modelled over `ℝ`.
-/

open Real

namespace SimpleWaveGen

/-! ### Constants (Communication.hpp and SineGenerator.hpp) -/

def SAMPLES_PER_FRAME : ℕ := 1000

def BUFFER_SIZE : ℕ := 16384

noncomputable def BASE_FREQUENCY : ℝ := 100.0

noncomputable def BASE_CYCLES : ℝ := 2.0

noncomputable def BASE_VELOCITY : ℝ := 0.005

noncomputable def MIN_FREQ : ℝ := 1.0

noncomputable def MAX_FREQ : ℝ := 22000.0

noncomputable def MIN_CYCLES : ℝ := 0.5

noncomputable def MAX_CYCLES : ℝ := 12.0

/-- `std::clamp(v, lo, hi)`: returns `lo` if `v < lo`, `hi` if `hi < v`,
otherwise `v`. -/
noncomputable def stdClamp (v lo hi : ℝ) : ℝ :=
  if v < lo then lo else if hi < v then hi else v

/-! ### Oscillator state (SineGenerator.hpp) -/

/-- The fields of class `SineGenerator`.  The atomics are modelled as plain
values (the embedding is sequential). -/
structure SineGenerator where
  frequency : ℝ
  amplitude : ℝ
  running : Bool
  phase : ℝ
  displayCycles : ℝ
  currentZoom : ℝ

/-- The `m_displayCycles` value computed by
`SineGenerator::updateDisplayParameters` from the current frequency. -/
noncomputable def displayCyclesOf (freq : ℝ) : ℝ :=
  let logFreq := Real.logb 10 freq
  let logMin := Real.logb 10 MIN_FREQ
  let logMax := Real.logb 10 MAX_FREQ
  let ratio := stdClamp ((logFreq - logMin) / (logMax - logMin)) 0 1
  MIN_CYCLES + ratio * (MAX_CYCLES - MIN_CYCLES)

/-- The `m_currentZoom` value computed by
`SineGenerator::updateDisplayParameters` (from the freshly updated
`m_displayCycles`). -/
noncomputable def zoomOf (freq : ℝ) : ℝ :=
  stdClamp (BASE_CYCLES / displayCyclesOf freq) 0.5 2.0

/-- `SineGenerator::updateDisplayParameters`. -/
noncomputable def updateDisplayParameters (s : SineGenerator) : SineGenerator :=
  { s with
    displayCycles := displayCyclesOf s.frequency
    currentZoom := zoomOf s.frequency }

/-- The `SineGenerator` constructor: amplitude is clamped to `[0, 1]`,
frequency is stored as passed, then `updateDisplayParameters()` runs.
The `sampleRate` argument is unused, as in the source. -/
noncomputable def mkSineGenerator (_sampleRate frequency amplitude : ℝ) :
    SineGenerator :=
  updateDisplayParameters
    { frequency := frequency
      amplitude := stdClamp amplitude 0 1
      running := false
      phase := 0
      displayCycles := BASE_CYCLES
      currentZoom := 1 }

/-- `SineGenerator::start`. -/
def start (s : SineGenerator) : SineGenerator := { s with running := true }

/-- `SineGenerator::stop`. -/
def stop (s : SineGenerator) : SineGenerator := { s with running := false }

/-- The wrap-around loop `while (m_phase > 2.0 * M_PI) m_phase -= 2.0 * M_PI;`
of `SineGenerator::generateSamples`. -/
noncomputable def phaseWrap (x : ℝ) : ℝ :=
  if h : 2 * π < x then phaseWrap (x - 2 * π) else x
termination_by (⌈x / (2 * π)⌉).toNat
decreasing_by
  have hpi : (0 : ℝ) < 2 * π := by positivity
  have h1 : (1 : ℝ) < x / (2 * π) := (one_lt_div hpi).mpr h
  have h2 : (1 : ℤ) < ⌈x / (2 * π)⌉ := Int.lt_ceil.mpr (by exact_mod_cast h1)
  have h3 : ⌈(x - 2 * π) / (2 * π)⌉ = ⌈x / (2 * π)⌉ - 1 := by
    rw [sub_div, div_self (ne_of_gt hpi)]
    exact Int.ceil_sub_one _
  rw [h3]
  omega

/-- The per-call phase advance of `SineGenerator::generateSamples`:
`velocity = BASE_VELOCITY * (1 + log10(freq / BASE_FREQUENCY + 1))`,
then `velocity = std::min(velocity, 0.03)`. -/
noncomputable def velocityOf (freq : ℝ) : ℝ :=
  min (BASE_VELOCITY * (1 + Real.logb 10 (freq / BASE_FREQUENCY + 1))) 0.03

/-- The sample-production loop of `SineGenerator::generateSamples`:
pushes `amplitude * sin(currentPhase)` and advances `currentPhase` by
`phaseStep`, `n` times. -/
noncomputable def genLoop (amplitude currentPhase phaseStep : ℝ) : ℕ → List ℝ
  | 0 => []
  | n + 1 =>
      amplitude * Real.sin currentPhase ::
        genLoop amplitude (currentPhase + phaseStep) phaseStep n

/-- `SineGenerator::generateSamples(count)`: returns the produced samples
and the new oscillator state. -/
noncomputable def generateSamples (s : SineGenerator) (count : ℕ) :
    List ℝ × SineGenerator :=
  if ¬ s.running then ([], s)
  else
    let s1 := updateDisplayParameters s
    let totalPhase := 2 * π * s1.displayCycles
    let phaseStep := totalPhase / count
    let samples := genLoop s1.amplitude s1.phase phaseStep count
    let velocity := velocityOf s1.frequency
    (samples, { s1 with phase := phaseWrap (s1.phase + velocity) })

/-- `SineGenerator::setParameter(name, value)`. -/
noncomputable def setParameter (s : SineGenerator) (name : String) (value : ℝ) :
    SineGenerator :=
  if name = "frequency" then
    updateDisplayParameters { s with frequency := stdClamp value MIN_FREQ MAX_FREQ }
  else if name = "amplitude" then
    { s with amplitude := stdClamp value 0 1 }
  else s

/-! ### Commands and the generator loop's command phase
(Communication.hpp, src/generator.cpp) -/

/-- `enum CommandType` of Communication.hpp. -/
inductive CommandType
  | CMD_NONE
  | CMD_START
  | CMD_STOP
  | CMD_SET_FREQ
  | CMD_SET_AMP
  | CMD_QUIT

/-- `struct Command` of Communication.hpp. -/
structure Command where
  type : CommandType
  value : ℝ

/-- `sizeof(Command)` on the target platform: a 4-byte enum tag, 4 bytes of
alignment padding, and an 8-byte double. -/
def sizeofCommand : ℤ := 16

/-- The generator main loop's mutable state: the oscillator and the
`keepRunning` flag. -/
structure GeneratorState where
  gen : SineGenerator
  keepRunning : Bool

/-- The `switch (cmd.type)` dispatch of the generator main loop
(src/generator.cpp lines 81-99). -/
noncomputable def dispatchCommand (cmd : Command) (st : GeneratorState) :
    GeneratorState :=
  match cmd.type with
  | .CMD_START => { st with gen := start st.gen }
  | .CMD_STOP => { st with gen := stop st.gen }
  | .CMD_SET_FREQ => { st with gen := setParameter st.gen "frequency" cmd.value }
  | .CMD_SET_AMP => { st with gen := setParameter st.gen "amplitude" cmd.value }
  | .CMD_QUIT => { st with keepRunning := false }
  | .CMD_NONE => st

/-- The command phase of one scheduler tick (src/generator.cpp lines 79-100):
the non-blocking `read` returned `bytesRead` bytes into `cmd`; the command is
dispatched only when `bytesRead == sizeof(Command)`, otherwise nothing
happens. -/
noncomputable def commandPhase (bytesRead : ℤ) (cmd : Command)
    (st : GeneratorState) : GeneratorState :=
  if bytesRead = sizeofCommand then dispatchCommand cmd st else st

/-! ### Shared ring buffer (Communication.hpp, src/generator.cpp) -/

/-- `struct SharedBuffer` of Communication.hpp.  The sample array is
modelled as a function on `ℕ` (the cursors always stay below
`BUFFER_SIZE`). -/
structure SharedBuffer where
  samples : ℕ → ℝ
  writePos : ℕ
  readPos : ℕ
  newDataAvailable : Bool
  totalProduced : ℕ

/-- The zero-initialized buffer built by the `SharedBuffer` constructor. -/
noncomputable def SharedBuffer.init : SharedBuffer :=
  { samples := fun _ => 0
    writePos := 0
    readPos := 0
    newDataAvailable := false
    totalProduced := 0 }

/-- The producer's per-sample write step (src/generator.cpp lines 112-121):
store the sample at `writePos`, advance `writePos` mod `BUFFER_SIZE`,
increment `totalProduced`, and if the advanced `writePos` caught up with
`readPos` (buffer full) advance `readPos` as well, discarding the oldest
sample. -/
def produceStep (b : SharedBuffer) (sample : ℝ) : SharedBuffer :=
  let samples1 := fun j => if j = b.writePos then sample else b.samples j
  let w1 := (b.writePos + 1) % BUFFER_SIZE
  let tp1 := b.totalProduced + 1
  let r1 := if w1 = b.readPos then (b.readPos + 1) % BUFFER_SIZE else b.readPos
  { samples := samples1
    writePos := w1
    readPos := r1
    newDataAvailable := b.newDataAvailable
    totalProduced := tp1 }

/-- `n` repetitions of the per-sample write step starting from the
zero-initialized buffer, writing sample values `f 0, f 1, …`. -/
noncomputable def produceN (f : ℕ → ℝ) : ℕ → SharedBuffer
  | 0 => SharedBuffer.init
  | n + 1 => produceStep (produceN f n) (f n)

/-- The number of valid/unread samples: the cursor distance
`(writePos - readPos) mod BUFFER_SIZE` (cursor equality means empty;
one slot is reserved). -/
def validCount (b : SharedBuffer) : ℕ :=
  (b.writePos + BUFFER_SIZE - b.readPos) % BUFFER_SIZE

/-! ### Basic lemmas about the oscillator operations -/

@[simp] lemma updateDisplayParameters_frequency (s : SineGenerator) :
    (updateDisplayParameters s).frequency = s.frequency := rfl

@[simp] lemma updateDisplayParameters_amplitude (s : SineGenerator) :
    (updateDisplayParameters s).amplitude = s.amplitude := rfl

@[simp] lemma updateDisplayParameters_running (s : SineGenerator) :
    (updateDisplayParameters s).running = s.running := rfl

@[simp] lemma updateDisplayParameters_phase (s : SineGenerator) :
    (updateDisplayParameters s).phase = s.phase := rfl

@[simp] lemma updateDisplayParameters_displayCycles (s : SineGenerator) :
    (updateDisplayParameters s).displayCycles = displayCyclesOf s.frequency := rfl

@[simp] lemma updateDisplayParameters_currentZoom (s : SineGenerator) :
    (updateDisplayParameters s).currentZoom = zoomOf s.frequency := rfl

lemma generateSamples_of_not_running (s : SineGenerator) (count : ℕ)
    (h : s.running = false) : generateSamples s count = ([], s) := by
  simp [generateSamples, h]

lemma generateSamples_of_running (s : SineGenerator) (count : ℕ)
    (h : s.running = true) :
    generateSamples s count =
      (genLoop s.amplitude s.phase (2 * π * displayCyclesOf s.frequency / count)
        count,
       { frequency := s.frequency
         amplitude := s.amplitude
         running := s.running
         phase := phaseWrap (s.phase + velocityOf s.frequency)
         displayCycles := displayCyclesOf s.frequency
         currentZoom := zoomOf s.frequency }) := by
  simp [generateSamples, h, updateDisplayParameters]

lemma stdClamp_mem (v : ℝ) {lo hi : ℝ} (h : lo ≤ hi) :
    lo ≤ stdClamp v lo hi ∧ stdClamp v lo hi ≤ hi := by
  unfold stdClamp
  split_ifs <;> constructor <;> linarith

lemma stdClamp_mono (lo hi : ℝ) {a b : ℝ} (hlh : lo ≤ hi) (h : a ≤ b) :
    stdClamp a lo hi ≤ stdClamp b lo hi := by
  unfold stdClamp
  split_ifs <;> linarith

/-! ### Claim theorems: setParameter and the stopped engine -/

/-- C3: `generateSamples(count)` on a stopped oscillator (`running = false`)
returns the empty sample list and leaves the whole state — in particular
`phase`, `displayCycles` and `zoom` — unchanged: a strict no-op. -/
theorem generateSamples_stopped_noop (s : SineGenerator) (count : ℕ)
    (h : s.running = false) :
    generateSamples s count = ([], s) :=
  generateSamples_of_not_running s count h

/-- Witness for `generateSamples_stopped_noop` at the freshly constructed
(stopped) oscillator of src/generator.cpp and the default frame size. -/
theorem generateSamples_stopped_noop_witness :
    generateSamples (mkSineGenerator 1 100 0.8) 1000 =
      ([], mkSineGenerator 1 100 0.8) :=
  generateSamples_stopped_noop (mkSineGenerator 1 100 0.8) 1000 rfl

/-- C6: `setParameter "frequency" v` stores `clamp(v, 1, 22000)` and
recomputes `displayCycles` and `zoom` from the clamped value;
`setParameter "amplitude" v` stores `clamp(v, 0, 1)`; any other name
changes no state and raises no error (the function is total). -/
theorem setParameter_spec (s : SineGenerator) (v : ℝ) (name : String) :
    (setParameter s "frequency" v).frequency = stdClamp v 1 22000 ∧
    (setParameter s "frequency" v).displayCycles
      = displayCyclesOf (stdClamp v 1 22000) ∧
    (setParameter s "frequency" v).currentZoom
      = zoomOf (stdClamp v 1 22000) ∧
    (setParameter s "amplitude" v).amplitude = stdClamp v 0 1 ∧
    (name ≠ "frequency" → name ≠ "amplitude" → setParameter s name v = s) := by
  refine ⟨?_, ?_, ?_, ?_, ?_⟩
  · norm_num [setParameter, MIN_FREQ, MAX_FREQ]
  · norm_num [setParameter, MIN_FREQ, MAX_FREQ]
  · norm_num [setParameter, MIN_FREQ, MAX_FREQ]
  · simp [setParameter]
  · intro h1 h2
    simp [setParameter, h1, h2]

/-- C10: `setParameter "amplitude" v` changes only the stored amplitude:
frequency, phase, running, displayCycles and zoom are all left unchanged. -/
theorem setParameter_amplitude_frame (s : SineGenerator) (v : ℝ) :
    (setParameter s "amplitude" v).frequency = s.frequency ∧
    (setParameter s "amplitude" v).phase = s.phase ∧
    (setParameter s "amplitude" v).running = s.running ∧
    (setParameter s "amplitude" v).displayCycles = s.displayCycles ∧
    (setParameter s "amplitude" v).currentZoom = s.currentZoom := by
  simp [setParameter]

/-- C8: on a scheduler tick, a read that returns any byte count other than
exactly `sizeof(Command)` dispatches nothing: the generator state (oscillator
and `keepRunning` flag) is exactly what it was, no error is surfaced and no
resynchronization happens. -/
theorem commandPhase_short_read_noop (bytesRead : ℤ) (cmd : Command)
    (st : GeneratorState) (h : bytesRead ≠ sizeofCommand) :
    commandPhase bytesRead cmd st = st := by
  simp [commandPhase, h]

/-- Witness for `commandPhase_short_read_noop`: a zero-byte read with a
pending `CMD_START` payload leaves a concrete generator state untouched. -/
theorem commandPhase_short_read_noop_witness :
    commandPhase 0 ⟨CommandType.CMD_START, 0⟩
        ⟨mkSineGenerator 1 100 0.8, true⟩ =
      ⟨mkSineGenerator 1 100 0.8, true⟩ :=
  commandPhase_short_read_noop 0 ⟨CommandType.CMD_START, 0⟩
    ⟨mkSineGenerator 1 100 0.8, true⟩ (by norm_num [sizeofCommand])

/-! ### Claim theorems: sample values and phase continuity -/

lemma genLoop_eq_map (a c st : ℝ) (n : ℕ) :
    genLoop a c st n =
      (List.range n).map (fun i : ℕ => a * Real.sin (c + (i : ℝ) * st)) := by
  induction n generalizing c with
  | zero => simp [genLoop]
  | succ n ih =>
    simp only [genLoop, ih (c + st), List.range_succ_eq_map, List.map_cons,
      List.map_map]
    congr 1
    · norm_num
    · apply List.map_congr_left
      intro i _
      simp only [Function.comp_apply]
      congr 1
      push_cast
      ring_nf

/-- C9: on a running oscillator, `generateSamples count` (for `count > 0`)
returns exactly `count` samples, and the `i`-th sample is
`amplitude * sin(phase + i * phaseStep)` with
`phaseStep = 2π * displayCycles / count`, `displayCycles` being the value
recomputed from the current frequency. -/
theorem generateSamples_values (s : SineGenerator) (count : ℕ)
    (hrun : s.running = true) (_hc : 0 < count) :
    (generateSamples s count).1 =
      (List.range count).map (fun i : ℕ =>
        s.amplitude *
          Real.sin (s.phase +
            (i : ℝ) * (2 * π * displayCyclesOf s.frequency / count))) := by
  rw [generateSamples_of_running s count hrun]
  exact genLoop_eq_map _ _ _ count

/-- Witness for `generateSamples_values`: the started default oscillator at
the default frame size of 1000 samples. -/
theorem generateSamples_values_witness :
    (generateSamples (start (mkSineGenerator 1 100 0.8)) 1000).1 =
      (List.range 1000).map (fun i : ℕ =>
        (start (mkSineGenerator 1 100 0.8)).amplitude *
          Real.sin ((start (mkSineGenerator 1 100 0.8)).phase +
            (i : ℝ) * (2 * π *
              displayCyclesOf (start (mkSineGenerator 1 100 0.8)).frequency /
                1000))) :=
  generateSamples_values (start (mkSineGenerator 1 100 0.8)) 1000 rfl
    (by norm_num)

/-- C2: phase continuity across blocks — for a running oscillator with
unchanged frequency and amplitude between frames, the first sample of the
next frame equals `amplitude * sin(p)` where `p` is the persistent phase
left at the end of the previous frame (exactly, in the real-number model). -/
theorem phase_continuity (s : SineGenerator) (c1 c2 : ℕ)
    (hrun : s.running = true) (hc2 : 0 < c2) :
    ((generateSamples (generateSamples s c1).2 c2).1).head? =
      some ((generateSamples s c1).2.amplitude *
        Real.sin ((generateSamples s c1).2.phase)) := by
  have hrun1 : ((generateSamples s c1).2).running = true := by
    rw [generateSamples_of_running s c1 hrun]
    exact hrun
  rw [generateSamples_of_running _ c2 hrun1]
  obtain ⟨m, rfl⟩ : ∃ m, c2 = m + 1 := ⟨c2 - 1, by omega⟩
  simp [genLoop]

/-- Witness for `phase_continuity`: two successive default-size frames of the
started default oscillator. -/
theorem phase_continuity_witness :
    ((generateSamples
        (generateSamples (start (mkSineGenerator 1 100 0.8)) 1000).2
        1000).1).head? =
      some ((generateSamples (start (mkSineGenerator 1 100 0.8)) 1000).2.amplitude *
        Real.sin
          ((generateSamples (start (mkSineGenerator 1 100 0.8)) 1000).2.phase)) :=
  phase_continuity (start (mkSineGenerator 1 100 0.8)) 1000 1000 rfl
    (by norm_num)

/-! ### Claim theorems: the perceptual display mapping -/

lemma displayCyclesOf_mono {f1 f2 : ℝ} (h0 : 0 < f1) (h : f1 ≤ f2) :
    displayCyclesOf f1 ≤ displayCyclesOf f2 := by
  simp only [displayCyclesOf]
  have hlog : Real.logb 10 f1 ≤ Real.logb 10 f2 :=
    Real.logb_le_logb_of_le (by norm_num) h0 h
  have hden : 0 < Real.logb 10 MAX_FREQ - Real.logb 10 MIN_FREQ := by
    unfold MIN_FREQ MAX_FREQ
    rw [show ((1.0 : ℝ)) = 1 by norm_num, Real.logb_one, sub_zero]
    exact Real.logb_pos (by norm_num) (by norm_num)
  have hr :
      (Real.logb 10 f1 - Real.logb 10 MIN_FREQ) /
          (Real.logb 10 MAX_FREQ - Real.logb 10 MIN_FREQ) ≤
        (Real.logb 10 f2 - Real.logb 10 MIN_FREQ) /
          (Real.logb 10 MAX_FREQ - Real.logb 10 MIN_FREQ) :=
    (div_le_div_iff_of_pos_right hden).mpr (by linarith)
  have hclamp := stdClamp_mono 0 1 (by norm_num) hr
  have hcy : MIN_CYCLES ≤ MAX_CYCLES := by unfold MIN_CYCLES MAX_CYCLES; norm_num
  nlinarith [hclamp, hcy]

lemma zoomOf_mem (f : ℝ) : 0.5 ≤ zoomOf f ∧ zoomOf f ≤ 2 := by
  unfold zoomOf
  have h := stdClamp_mem (BASE_CYCLES / displayCyclesOf f)
    (show (0.5 : ℝ) ≤ 2.0 by norm_num)
  refine ⟨h.1, ?_⟩
  have h2 := h.2
  norm_num at h2 ⊢
  exact h2

/-- C5: over the admissible frequency range `[1, 22000]`, the recomputed
`displayCycles` is monotonically non-decreasing in the frequency (hence in
its logarithm), and the recomputed `zoom` always lies in `[0.5, 2]`. -/
theorem displayCycles_mono_zoom_range (f1 f2 : ℝ)
    (h1 : 1 ≤ f1) (h12 : f1 ≤ f2) (_h2 : f2 ≤ 22000) :
    displayCyclesOf f1 ≤ displayCyclesOf f2 ∧
    (0.5 ≤ zoomOf f1 ∧ zoomOf f1 ≤ 2) :=
  ⟨displayCyclesOf_mono (by linarith) h12, zoomOf_mem f1⟩

/-- Witness for `displayCycles_mono_zoom_range` at the frequencies 100 Hz
and 440 Hz. -/
theorem displayCycles_mono_zoom_range_witness :
    displayCyclesOf 100 ≤ displayCyclesOf 440 ∧
    (0.5 ≤ zoomOf 100 ∧ zoomOf 100 ≤ 2) :=
  displayCycles_mono_zoom_range 100 440 (by norm_num) (by norm_num)
    (by norm_num)

/-! ### Claim theorems: the per-call phase advance -/

lemma phaseWrap_spec (x : ℝ) :
    (∃ n : ℕ, phaseWrap x = x - 2 * π * n) ∧ phaseWrap x ≤ 2 * π ∧
      (0 ≤ x → 0 ≤ phaseWrap x) := by
  induction x using phaseWrap.induct with
  | case1 x h ih =>
    rw [phaseWrap, dif_pos h]
    obtain ⟨⟨n, hn⟩, hle, hnn⟩ := ih
    exact ⟨⟨n + 1, by push_cast [hn]; ring⟩, hle, fun _ => hnn (by linarith)⟩
  | case2 x h =>
    rw [phaseWrap, dif_neg h]
    exact ⟨⟨0, by norm_num⟩, le_of_not_lt h, fun hx => hx⟩

/-- C4: on every `generateSamples` call with `running = true`, the persistent
phase advances by exactly `velocity = min(0.03, BASE_VELOCITY * (1 +
log10(frequency / BASE_FREQUENCY + 1)))` and is then reduced by the repeated
subtraction of `2π` (`phaseWrap`): the new phase differs from
`old phase + velocity` by an integer multiple of `2π`, is at most `2π`, and
stays nonnegative whenever `old phase + velocity` is; the velocity added per
call never exceeds `0.03`. -/
theorem generateSamples_phase_advance (s : SineGenerator) (count : ℕ)
    (hrun : s.running = true) :
    (generateSamples s count).2.phase =
      phaseWrap (s.phase + velocityOf s.frequency) ∧
    velocityOf s.frequency ≤ 0.03 ∧
    (∃ n : ℕ, (generateSamples s count).2.phase =
      s.phase + velocityOf s.frequency - 2 * π * n) ∧
    (generateSamples s count).2.phase ≤ 2 * π ∧
    (0 ≤ s.phase + velocityOf s.frequency →
      0 ≤ (generateSamples s count).2.phase) := by
  rw [generateSamples_of_running s count hrun]
  obtain ⟨hex, hle, hnn⟩ := phaseWrap_spec (s.phase + velocityOf s.frequency)
  exact ⟨rfl, min_le_right _ _, hex, hle, hnn⟩

/-- Witness for `generateSamples_phase_advance`: the started default
oscillator and the default frame size. -/
theorem generateSamples_phase_advance_witness :
    (generateSamples (start (mkSineGenerator 1 100 0.8)) 1000).2.phase =
      phaseWrap ((start (mkSineGenerator 1 100 0.8)).phase +
        velocityOf (start (mkSineGenerator 1 100 0.8)).frequency) ∧
    velocityOf (start (mkSineGenerator 1 100 0.8)).frequency ≤ 0.03 ∧
    (∃ n : ℕ, (generateSamples (start (mkSineGenerator 1 100 0.8)) 1000).2.phase =
      (start (mkSineGenerator 1 100 0.8)).phase +
        velocityOf (start (mkSineGenerator 1 100 0.8)).frequency - 2 * π * n) ∧
    (generateSamples (start (mkSineGenerator 1 100 0.8)) 1000).2.phase ≤ 2 * π ∧
    (0 ≤ (start (mkSineGenerator 1 100 0.8)).phase +
        velocityOf (start (mkSineGenerator 1 100 0.8)).frequency →
      0 ≤ (generateSamples (start (mkSineGenerator 1 100 0.8)) 1000).2.phase) :=
  generateSamples_phase_advance (start (mkSineGenerator 1 100 0.8)) 1000 rfl

/-! ### Claim theorems: ring buffer overwrite policy -/

lemma produceStep_writePos (b : SharedBuffer) (v : ℝ) :
    (produceStep b v).writePos = (b.writePos + 1) % BUFFER_SIZE := rfl

lemma produceStep_readPos (b : SharedBuffer) (v : ℝ) :
    (produceStep b v).readPos =
      if (b.writePos + 1) % BUFFER_SIZE = b.readPos
      then (b.readPos + 1) % BUFFER_SIZE else b.readPos := rfl

/-- Closed form for the cursors after `n` per-sample write steps from the
zero-initialized buffer: before the first wrap the read cursor is untouched;
from the wrap on, the advanced write cursor always lands on the read cursor,
which is pushed one slot ahead of it. -/
lemma produceN_cursors (f : ℕ → ℝ) (n : ℕ) :
    (n < BUFFER_SIZE → (produceN f n).writePos = n ∧ (produceN f n).readPos = 0) ∧
    (BUFFER_SIZE ≤ n → (produceN f n).writePos = n % BUFFER_SIZE ∧
      (produceN f n).readPos = (n + 1) % BUFFER_SIZE) := by
  induction n with
  | zero =>
    refine ⟨fun _ => ⟨rfl, rfl⟩, fun h => ?_⟩
    simp [BUFFER_SIZE] at h
  | succ n ih =>
    obtain ⟨ih1, ih2⟩ := ih
    by_cases hn : n < BUFFER_SIZE
    · obtain ⟨hw, hr⟩ := ih1 hn
      constructor
      · intro hns
        rw [produceN, produceStep_writePos, produceStep_readPos, hw, hr]
        unfold BUFFER_SIZE at *
        constructor
        · omega
        · split_ifs with h
          · omega
          · rfl
      · intro hns
        rw [produceN, produceStep_writePos, produceStep_readPos, hw, hr]
        unfold BUFFER_SIZE at *
        constructor
        · omega
        · split_ifs with h
          · omega
          · omega
    · have hge : BUFFER_SIZE ≤ n := le_of_not_lt hn
      obtain ⟨hw, hr⟩ := ih2 hge
      refine ⟨fun hlt => absurd hlt (by omega), fun _ => ?_⟩
      rw [produceN, produceStep_writePos, produceStep_readPos, hw, hr]
      unfold BUFFER_SIZE at *
      constructor
      · omega
      · split_ifs with h
        · omega
        · omega

/-- C1: writing `BUFFER_SIZE + k` samples (`k > 0`) into the freshly
zero-initialized shared buffer with no consumer activity leaves exactly
`BUFFER_SIZE - 1` valid/unread samples, and the read cursor has advanced by
`k + 1` positions (mod `BUFFER_SIZE`) from its initial position 0. -/
theorem ringBuffer_overwrite_policy (f : ℕ → ℝ) (k : ℕ) (_hk : 0 < k) :
    validCount (produceN f (BUFFER_SIZE + k)) = BUFFER_SIZE - 1 ∧
    (produceN f (BUFFER_SIZE + k)).readPos = (k + 1) % BUFFER_SIZE := by
  obtain ⟨hw, hr⟩ :=
    (produceN_cursors f (BUFFER_SIZE + k)).2 (Nat.le_add_right _ _)
  unfold validCount
  rw [hw, hr]
  unfold BUFFER_SIZE at *
  constructor
  · omega
  · omega

/-- Witness for `ringBuffer_overwrite_policy` at `k = 1` with all-zero
sample values. -/
theorem ringBuffer_overwrite_policy_witness :
    validCount (produceN (fun _ => 0) (BUFFER_SIZE + 1)) = BUFFER_SIZE - 1 ∧
    (produceN (fun _ => 0) (BUFFER_SIZE + 1)).readPos = (1 + 1) % BUFFER_SIZE :=
  ringBuffer_overwrite_policy (fun _ => 0) 1 (by norm_num)

/-! ### Claim theorems: parameter-range invariant of reachable states -/

@[simp] lemma mkSineGenerator_frequency (sr f a : ℝ) :
    (mkSineGenerator sr f a).frequency = f := rfl

@[simp] lemma mkSineGenerator_amplitude (sr f a : ℝ) :
    (mkSineGenerator sr f a).amplitude = stdClamp a 0 1 := rfl

lemma setParameter_frequency_eq (s : SineGenerator) (v : ℝ) :
    setParameter s "frequency" v =
      updateDisplayParameters { s with frequency := stdClamp v MIN_FREQ MAX_FREQ } := by
  simp [setParameter]

lemma setParameter_amplitude_eq (s : SineGenerator) (v : ℝ) :
    setParameter s "amplitude" v = { s with amplitude := stdClamp v 0 1 } := by
  simp [setParameter]

lemma setParameter_other_eq (s : SineGenerator) (name : String) (v : ℝ)
    (h1 : name ≠ "frequency") (h2 : name ≠ "amplitude") :
    setParameter s name v = s := by
  simp [setParameter, h1, h2]

lemma generateSamples_keeps_freq_amp (s : SineGenerator) (count : ℕ) :
    (generateSamples s count).2.frequency = s.frequency ∧
    (generateSamples s count).2.amplitude = s.amplitude := by
  rcases Bool.eq_false_or_eq_true s.running with h | h
  · rw [generateSamples_of_running s count h]
    exact ⟨rfl, rfl⟩
  · rw [generateSamples_of_not_running s count h]
    exact ⟨rfl, rfl⟩

/-- The oscillator states reachable in the repository's programs: built by
the constructor with a frequency argument already inside `[1, 22000]` (the
generator process passes 100), then transformed by any sequence of
`setParameter`, `start`, `stop` and `generateSamples`. -/
inductive Reachable : SineGenerator → Prop
  | init (sampleRate frequency amplitude : ℝ)
      (h1 : 1 ≤ frequency) (h2 : frequency ≤ 22000) :
      Reachable (mkSineGenerator sampleRate frequency amplitude)
  | setParam (s : SineGenerator) (name : String) (value : ℝ) :
      Reachable s → Reachable (setParameter s name value)
  | start (s : SineGenerator) :
      Reachable s → Reachable (SimpleWaveGen.start s)
  | stop (s : SineGenerator) :
      Reachable s → Reachable (SimpleWaveGen.stop s)
  | gen (s : SineGenerator) (count : ℕ) :
      Reachable s → Reachable (generateSamples s count).2

/-- C7 counterexample: the claim quantifies over all constructor arguments,
but the `SineGenerator` constructor clamps only the amplitude, not the
frequency.  Constructed with frequency argument `0.5`, the state's frequency
is `0.5`, outside `[1, 22000]` — with no operation applied at all. -/
theorem constructor_frequency_unclamped :
    ¬ ((1 ≤ (mkSineGenerator 44100 0.5 0.8).frequency ∧
        (mkSineGenerator 44100 0.5 0.8).frequency ≤ 22000) ∧
       (0 ≤ (mkSineGenerator 44100 0.5 0.8).amplitude ∧
        (mkSineGenerator 44100 0.5 0.8).amplitude ≤ 1)) := by
  intro h
  have hf : (mkSineGenerator 44100 0.5 0.8).frequency = 0.5 := rfl
  rw [hf] at h
  norm_num at h

/-- C7 (amended): in every state reachable from the constructor *with a
frequency argument inside `[1, 22000]`* by any sequence of `setParameter`,
`start`, `stop` and `generateSamples`, the frequency lies in `[1, 22000]`
and the amplitude lies in `[0, 1]`. -/
theorem reachable_parameter_ranges (s : SineGenerator) (h : Reachable s) :
    (1 ≤ s.frequency ∧ s.frequency ≤ 22000) ∧
    (0 ≤ s.amplitude ∧ s.amplitude ≤ 1) := by
  induction h with
  | init sr f a h1 h2 =>
    have hcl := stdClamp_mem a (show (0 : ℝ) ≤ 1 by norm_num)
    exact ⟨⟨by simpa using h1, by simpa using h2⟩,
           by simpa using hcl.1, by simpa using hcl.2⟩
  | setParam s name v hs ih =>
    by_cases hf : name = "frequency"
    · subst hf
      rw [setParameter_frequency_eq]
      have hcl : 1 ≤ stdClamp v MIN_FREQ MAX_FREQ ∧
          stdClamp v MIN_FREQ MAX_FREQ ≤ 22000 := by
        have hmm : MIN_FREQ ≤ MAX_FREQ := by unfold MIN_FREQ MAX_FREQ; norm_num
        have hm := stdClamp_mem v hmm
        constructor
        · refine le_trans (le_of_eq ?_) hm.1
          unfold MIN_FREQ
          norm_num
        · refine le_trans hm.2 (le_of_eq ?_)
          unfold MAX_FREQ
          norm_num
      exact ⟨⟨by simpa using hcl.1, by simpa using hcl.2⟩,
             by simpa using ih.2.1, by simpa using ih.2.2⟩
    · by_cases ha : name = "amplitude"
      · subst ha
        rw [setParameter_amplitude_eq]
        have hcl := stdClamp_mem v (show (0 : ℝ) ≤ 1 by norm_num)
        exact ⟨⟨by simpa using ih.1.1, by simpa using ih.1.2⟩,
               by simpa using hcl.1, by simpa using hcl.2⟩
      · rw [setParameter_other_eq s name v hf ha]
        exact ih
  | start s hs ih => exact ih
  | stop s hs ih => exact ih
  | gen s count hs ih =>
    obtain ⟨hfreq, hamp⟩ := generateSamples_keeps_freq_amp s count
    rw [hfreq, hamp]
    exact ih

/-- Witness for `reachable_parameter_ranges` at the generator process's
actual constructor call `SineGenerator(1.0, 100.0, 0.8)`. -/
theorem reachable_parameter_ranges_witness :
    (1 ≤ (mkSineGenerator 1 100 0.8).frequency ∧
      (mkSineGenerator 1 100 0.8).frequency ≤ 22000) ∧
    (0 ≤ (mkSineGenerator 1 100 0.8).amplitude ∧
      (mkSineGenerator 1 100 0.8).amplitude ≤ 1) :=
  reachable_parameter_ranges (mkSineGenerator 1 100 0.8)
    (Reachable.init 1 100 0.8 (by norm_num) (by norm_num))

end SimpleWaveGen
